import Mathlib

/-!
Verification of the robot-hat PWM / Servo / Robot motion stack.

Shallow embedding of `robot_hat/pwm.py`, `robot_hat/servo.py`,
`robot_hat/robot.py`, `robot_hat/utils.py` and the key-value store
`robot_hat/filedb.py`.  Python floats are modelled by exact rationals
(`ℚ`); `int(...)` is truncation toward zero, `round(...)` is Python's
banker's rounding; `math.sqrt` composed with `int(...)` on a nonnegative
value is `Nat.sqrt` of the floor (the identity
`⌊√x⌋ = ⌊√⌊x⌋⌋` holds for every real `x ≥ 0`).  A Python call that
raises an exception is modelled as `none` / a dedicated outcome value:
no register write is produced past the raising point.
-/

-- The Batteries rational-number operations are `@[irreducible]`, which
-- blocks `decide` on closed rational facts; make them reducible for
-- kernel evaluation in this development.
unseal Rat.mul Rat.add Rat.sub Rat.inv

namespace RobotHat

/-- Python `int(q)`: truncation toward zero. -/
def pyInt (q : ℚ) : ℤ := if 0 ≤ q then ⌊q⌋ else ⌈q⌉

/-- Python `round(q)`: round half to even (banker's rounding). -/
def pyRound (q : ℚ) : ℤ :=
  if q - (⌊q⌋ : ℚ) = 1/2 then (if Even ⌊q⌋ then ⌊q⌋ else ⌊q⌋ + 1) else round q

/-- `utils.mapping`: linear range mapping. -/
def mapping (x in_min in_max out_min out_max : ℚ) : ℚ :=
  (x - in_min) * (out_max - out_min) / (in_max - in_min) + out_min

/-! ## PWM (`robot_hat/pwm.py`) -/

/-- `PWM.CLOCK = 72000000.0`. -/
def CLOCK : ℕ := 72000000

/-- Start of the prescaler scan window for an integer frequency `n ≥ 1`:
`start = int(math.sqrt(CLOCK / freq)) - 5; start = max(start, 1)`.
(`Nat.sqrt (CLOCK / n)` is the floor of the real `sqrt(CLOCK / n)`.) -/
def freqStart (n : ℕ) : ℕ := max (Nat.sqrt (CLOCK / n) - 5) 1

/-- The 10 scanned `(prescaler, period)` candidates:
`for psc in range(start, start + 10): arr = int(CLOCK / freq / psc)`. -/
def freqCandidates (n : ℕ) : List (ℕ × ℕ) :=
  (List.range 10).map (fun k => (freqStart n + k, CLOCK / n / (freqStart n + k)))

/-- The recorded error of a candidate:
`abs(freq - CLOCK / psc / arr)` in exact arithmetic. -/
def freqError (n : ℕ) (c : ℕ × ℕ) : ℚ :=
  |(n : ℚ) - (CLOCK : ℚ) / (c.1 : ℚ) / (c.2 : ℚ)|

/-- First element of the list attaining the minimal value of `e`
(Python `lst[errors.index(min(errors))]`): a later element replaces an
earlier one only when its error is strictly smaller. -/
def argminBy (e : ℕ × ℕ → ℚ) : List (ℕ × ℕ) → Option (ℕ × ℕ)
  | [] => none
  | c :: rest =>
    match argminBy e rest with
    | none => some c
    | some b => if e b < e c then some b else some c

/-- `PWM.freq(f)` selection step.  The requested frequency is first
truncated: `self._freq = int(freq)`.  `none` models a raised exception:
`ZeroDivisionError` when `int(freq) = 0` or when a candidate period is
`0`, `math domain error` when `int(freq) < 0`. -/
def pwmFreqResolve (f : ℚ) : Option (ℕ × ℕ) :=
  let n := pyInt f
  if n ≤ 0 then none
  else
    let m := n.toNat
    if (freqCandidates m).any (fun c => c.2 = 0) then none
    else argminBy (freqError m) (freqCandidates m)

/-- One 3-byte register transaction as produced by `PWM._i2c_write`:
`write([reg, value >> 8, value & 0xFF])` (the 3-element branch of
`I2C.write` sends it as a single `write_word_data` transfer, register
byte first, then high byte, then low byte). -/
structure RegWrite where
  reg : ℤ
  hi : ℤ
  lo : ℤ
  deriving DecidableEq, Repr

/-- `PWM._i2c_write(reg, value)`: `value >> 8` is floor division by 256
and `value & 0xFF` is the nonnegative remainder mod 256 (Python
semantics on arbitrary ints). -/
def i2cWrite16 (reg value : ℤ) : RegWrite :=
  ⟨reg, Int.fdiv value 256, Int.emod value 256⟩

/-- Per-instance state of one `PWM` object (Python instance attributes). -/
structure PwmChan where
  channel : ℕ
  timerIndex : ℕ
  freqCache : ℤ          -- self._freq
  prescaler : ℤ          -- self._prescaler
  pulseWidthRaw : ℤ      -- self._pulse_width
  pwPercent : Option ℚ   -- self._pulse_width_percent (absent before first set)
  deriving DecidableEq, Repr

/-- The process-wide `timer` list (`pwm.py` module global): the shared
`arr` slot of each of the 7 timers, `timer[i]['arr']`. -/
def timerArr (tm : List ℤ) (i : ℕ) : ℤ := tm.getD i 1

/-- `PWM.prescaler(p)` setter: stores `round(p)`, recomputes the cached
frequency from the *shared* timer period, and writes `p - 1` to the
prescaler register of the timer group.  `none` models the
`ZeroDivisionError` of `CLOCK / prescaler / arr`. -/
def prescalerSet (c : PwmChan) (tm : List ℤ) (p : ℚ) :
    Option (PwmChan × List RegWrite) :=
  let pres := pyRound p
  let a := timerArr tm c.timerIndex
  if pres = 0 ∨ a = 0 then none
  else
    let fc := pyInt ((CLOCK : ℚ) / (pres : ℚ) / (a : ℚ))
    let reg : ℤ :=
      if c.timerIndex < 4 then 0x40 + c.timerIndex else 0x50 + c.timerIndex - 4
    some ({ c with prescaler := pres, freqCache := fc },
          [i2cWrite16 reg (pres - 1)])

/-- `PWM.period(arr)` setter: stores `round(arr)` into the shared timer
slot, recomputes the cached frequency, writes the period register. -/
def periodSet (c : PwmChan) (tm : List ℤ) (arr : ℚ) :
    Option (PwmChan × List ℤ × List RegWrite) :=
  let a := pyRound arr
  let tm' := tm.set c.timerIndex a
  if c.prescaler = 0 ∨ a = 0 then none
  else
    let fc := pyInt ((CLOCK : ℚ) / (c.prescaler : ℚ) / (a : ℚ))
    let reg : ℤ :=
      if c.timerIndex < 4 then 0x44 + c.timerIndex else 0x54 + c.timerIndex - 4
    some ({ c with freqCache := fc }, tm', [i2cWrite16 reg a])

/-- `PWM.period()` getter: returns the shared `timer[timer_index]['arr']`. -/
def periodGet (c : PwmChan) (tm : List ℤ) : ℤ := timerArr tm c.timerIndex

/-- `PWM.freq()` getter: returns the instance's own cached `_freq`. -/
def freqGet (c : PwmChan) : ℚ := (c.freqCache : ℚ)

/-- `PWM.freq(f)` setter: resolve `(psc, arr)`, then
`self.prescaler(psc); self.period(arr)`.  `none` models a raised
exception: no register write happens in that case (Python leaves the
already-assigned `self._freq = int(freq)` behind, a mutation this
model drops together with the failed call). -/
def freqSet (c : PwmChan) (tm : List ℤ) (f : ℚ) :
    Option (PwmChan × List ℤ × List RegWrite) :=
  match pwmFreqResolve f with
  | none => none
  | some (psc, arr) =>
    let c1 := { c with freqCache := pyInt f }
    match prescalerSet c1 tm (psc : ℚ) with
    | none => none
    | some (c2, w1) =>
      match periodSet c2 tm (arr : ℚ) with
      | none => none
      | some (c3, tm', w2) => some (c3, tm', w1 ++ w2)

/-- `PWM.pulse_width(v)` setter: truncates to `int` and writes register
`0x20 + channel` (no clamping appears in the source). -/
def pulseWidthSet (c : PwmChan) (v : ℚ) : PwmChan × List RegWrite :=
  let pw := pyInt v
  ({ c with pulseWidthRaw := pw }, [i2cWrite16 (0x20 + c.channel) pw])

/-- `PWM.pulse_width_percent(pct)` setter: stores the percentage and
sets the raw pulse width to `pct / 100 * timer[timer_index]['arr']`. -/
def pulseWidthPercentSet (c : PwmChan) (tm : List ℤ) (pct : ℚ) :
    PwmChan × List RegWrite :=
  pulseWidthSet { c with pwPercent := some pct }
    (pct / 100 * ((timerArr tm c.timerIndex : ℤ) : ℚ))

/-! ## Servo (`robot_hat/servo.py`) -/

/-- `Servo.PERIOD = 4095`. -/
def SERVO_PERIOD : ℕ := 4095

/-- Register count produced by `Servo.angle(deg)`: clamp to
`[-90, 90]`, `mapping` to `[500, 2500]` µs, clamp again to
`[MIN_PW, MAX_PW]`, then `value = int(pulse_width / 20000 * PERIOD)`. -/
def servoAngleCount (deg : ℚ) : ℤ :=
  let clamped := max (-90) (min 90 deg)
  let pwt := mapping clamped (-90) 90 500 2500
  let cpw := max 500 (min 2500 pwt)
  pyInt (cpw / 20000 * (SERVO_PERIOD : ℚ))

/-- `Servo.angle(deg)`: the count is delegated to `PWM.pulse_width`. -/
def servoAngle (c : PwmChan) (deg : ℚ) : PwmChan × List RegWrite :=
  pulseWidthSet c ((servoAngleCount deg : ℤ) : ℚ)

/-! ## Robot / MotionController (`robot_hat/robot.py`) -/

/-- `Robot.max_dps = 428` degrees per second. -/
def max_dps : ℕ := 428

/-- The clamp in `Robot.set_offset`: `min(max(offset, -20), 20)`. -/
def clampOffset (x : ℚ) : ℚ := min (max x (-20)) 20

/-- The `fileDB` key used for offsets:
`f"{self.name}_servo_offset_list"`. -/
def offsetKey (name : String) : String := name ++ "_servo_offset_list"

/-- The `fileDB` calibration store, modelled as an association list from
key to stored offset vector.  (Python serializes the vector with
`str(list)` and re-parses with `float`; that textual round-trip is
value-preserving, so the store is modelled at the value level.) -/
def storeSet (s : List (String × List ℚ)) (k : String) (v : List ℚ) :
    List (String × List ℚ) :=
  if s.any (fun e => e.1 = k) then
    s.map (fun e => if e.1 = k then (k, v) else e)
  else s ++ [(k, v)]

/-- `fileDB.get` with a default value. -/
def storeGet (s : List (String × List ℚ)) (k : String) (d : List ℚ) :
    List ℚ :=
  match s.find? (fun e => e.1 = k) with
  | some e => e.2
  | none => d

/-- The calibration-relevant state of a `Robot`. -/
structure RobotCal where
  name : String
  store : List (String × List ℚ)
  offset : List ℚ
  deriving DecidableEq, Repr

/-- `Robot.set_offset(offset_list)`: clamp every element to
`[-20, 20]`, persist under the name-derived key, update the in-memory
offsets. -/
def set_offset (r : RobotCal) (l : List ℚ) : RobotCal :=
  let cl := l.map clampOffset
  { r with store := storeSet r.store (offsetKey r.name) cl, offset := cl }

/-- The offset-loading read of `Robot.__init__`: fetch the stored
vector for this robot name, defaulting to `pin_num` zeros. -/
def reloadOffsets (s : List (String × List ℚ)) (name : String) (n : ℕ) :
    List ℚ :=
  storeGet s (offsetKey name) (List.replicate n 0)

/-- Outcome of a `Robot.servo_move` call (register traffic aside). -/
inductive MoveOutcome where
  /-- `int(max(absdelta)) == 0`: sleep one step and return. -/
  | noMove : MoveOutcome
  /-- the stepping loop runs: final total time (ms), step count,
  per-axis step sizes. -/
  | moved (totalTime : ℚ) (maxStep : ℤ) (stepSizes : List ℚ) : MoveOutcome
  /-- `max_step = int(total_time / 10) = 0` and the per-axis
  `delta[i] / max_step` raises `ZeroDivisionError`. -/
  | zeroDivError (totalTime : ℚ) : MoveOutcome
  /-- `max(absdelta)` on an empty axis list raises `ValueError`. -/
  | badInput : MoveOutcome
  deriving DecidableEq, Repr

/-- The duration logic of `Robot.servo_move`: nominal total time from
`bpm` (`60 / bpm * 1000`, taken only when `bpm` is truthy) or from the
clamped speed (`-9.9 * speed + 1000`). -/
def nominalTotalTime (speed : ℚ) (bpm : Option ℚ) : ℚ :=
  let sp := min 100 (max 0 speed)
  match bpm with
  | some b => if b = 0 then -(99/10) * sp + 1000 else 60 / b * 1000
  | none => -(99/10) * sp + 1000

/-- The rate limit of `Robot.servo_move`: if
`max_delta / total_time * 1000 > max_dps` then
`total_time = max_delta / max_dps * 1000`. -/
def limitedTotalTime (maxDelta : ℤ) (t0 : ℚ) : ℚ :=
  if (maxDelta : ℚ) / t0 * 1000 > (max_dps : ℚ) then
    (maxDelta : ℚ) / (max_dps : ℚ) * 1000
  else t0

/-- `Robot.servo_move(targets, speed, bpm)` on current positions
`pos`: deltas, truncated max delta, duration, rate limit,
`max_step = int(total_time / 10)`, per-axis steps `delta / max_step`.
`badInput` models the `ValueError` of `max([])` for zero axes and the
`IndexError` of `targets[i]` when fewer targets than axes are given. -/
def servoMove (pos targets : List ℚ) (speed : ℚ) (bpm : Option ℚ) :
    MoveOutcome :=
  if pos.length = 0 ∨ targets.length < pos.length then .badInput
  else
    let deltas := List.zipWith (fun t p => t - p) targets pos
    let maxAbs := (deltas.map (fun d => |d|)).foldl max 0
    let maxDelta := pyInt maxAbs
    if maxDelta = 0 then .noMove
    else
      let t := limitedTotalTime maxDelta (nominalTotalTime speed bpm)
      let maxStep := pyInt (t / 10)
      if maxStep = 0 then .zeroDivError t
      else .moved t maxStep (deltas.map (fun d => d / (maxStep : ℚ)))

/-! ## Definitions taken from the spec's words (for refinement claims)

These follow the specification text, not the source, and are compared
against the source-derived definitions above. -/

/-- Modelled from the spec: the frequency-resolution procedure as the
spec states it for a requested frequency `f` itself (no integer
truncation): `p0 = max(1, floor(sqrt(CLOCK / f)) - 5)`, candidates
`p ∈ [p0, p0 + 10)` with `period = floor(CLOCK / f / p)`, minimal
absolute error of `CLOCK / p / period` versus `f`, ties to the smallest
`p` in the window.  (`Nat.sqrt ∘ Nat.floor` is the floor of the real
square root.) -/
def specFreqResolve (f : ℚ) : Option (ℕ × ℕ) :=
  let p0 : ℕ := max 1 (Nat.sqrt ⌊(CLOCK : ℚ) / f⌋₊ - 5)
  let cands := (List.range 10).map
    (fun k => (p0 + k, ⌊(CLOCK : ℚ) / f / ((p0 + k : ℕ) : ℚ)⌋₊))
  argminBy (fun c => |(CLOCK : ℚ) / (c.1 : ℚ) / (c.2 : ℚ) - f|) cands

/-! ## Helper lemmas -/

lemma pyInt_natCast (n : ℕ) : pyInt (n : ℚ) = n := by
  unfold pyInt
  rw [if_pos (by positivity)]
  exact Int.floor_natCast n

lemma pyInt_of_nonneg {q : ℚ} (h : 0 ≤ q) : pyInt q = ⌊q⌋ := if_pos h

lemma pyRound_natCast (n : ℕ) : pyRound (n : ℚ) = n := by
  unfold pyRound
  rw [Int.floor_natCast]
  norm_num

/-- A selected candidate is one of the scanned candidates. -/
lemma argminBy_mem {e : ℕ × ℕ → ℚ} :
    ∀ {l : List (ℕ × ℕ)} {c : ℕ × ℕ}, argminBy e l = some c → c ∈ l := by
  intro l
  induction l with
  | nil => intro c h; simp [argminBy] at h
  | cons a t ih =>
    intro c h
    unfold argminBy at h
    rcases ht : argminBy e t with _ | b
    · rw [ht] at h
      simp only [Option.some.injEq] at h
      simp [← h]
    · rw [ht] at h
      simp only at h
      by_cases hlt : e b < e a
      · rw [if_pos hlt] at h
        simp only [Option.some.injEq] at h
        exact List.mem_cons_of_mem a (ih (h ▸ ht))
      · rw [if_neg hlt] at h
        simp only [Option.some.injEq] at h
        simp [← h]

/-! ## Claims -/

/-- Normal form of `pwmFreqResolve` when the truncation yields the
positive integer `n`. -/
lemma pwmFreqResolve_eq (f : ℚ) (n : ℕ) (hn : pyInt f = (n : ℤ))
    (h : 0 < n) :
    pwmFreqResolve f =
      (if (freqCandidates n).any (fun c => c.2 = 0) then none
       else argminBy (freqError n) (freqCandidates n)) := by
  unfold pwmFreqResolve
  rw [hn]
  rw [if_neg (by exact_mod_cast h.not_le)]
  rw [Int.toNat_natCast]

/-- Normal form of `pwmFreqResolve` at a positive integer frequency. -/
lemma pwmFreqResolve_natCast (n : ℕ) (h : 0 < n) :
    pwmFreqResolve (n : ℚ) =
      (if (freqCandidates n).any (fun c => c.2 = 0) then none
       else argminBy (freqError n) (freqCandidates n)) :=
  pwmFreqResolve_eq (n : ℚ) n (pyInt_natCast n) h

/-- C3 (counterexample): the claim says the register count is
`round(pulse_us / 20000 * 4095)`, which at `deg = 90` (pulse 2500 µs)
gives `round(511.875) = 512`; the code truncates with `int(...)` and
produces 511. -/
theorem servo_angle_round_cex :
    servoAngleCount 90 = 511 ∧
    round ((2500 : ℚ) / 20000 * (SERVO_PERIOD : ℚ)) = 512 ∧
    servoAngleCount 90 ≠ round ((2500 : ℚ) / 20000 * (SERVO_PERIOD : ℚ)) := by
  have h : round ((2500 : ℚ) / 20000 * (SERVO_PERIOD : ℚ)) = 512 := by
    have h2 : (2500 : ℚ) / 20000 * (SERVO_PERIOD : ℚ) = 4095 / 8 := by
      unfold SERVO_PERIOD
      norm_num
    rw [h2, round_eq]
    norm_num
  refine ⟨by decide, h, ?_⟩
  rw [h]
  decide

/-- C3 (amended): `Servo.angle(deg)` clamps `deg` to `[-90, 90]`, maps
it linearly to `pulse_us = 500 + (deg + 90) / 180 * 2000`, converts it
to the register count by *truncation* `int(pulse_us / 20000 * 4095)`
(not rounding), and delegates that count to `pulse_width`; in
particular `angle(-90)` yields count 102, `angle(0)` yields 307, and
`angle(90)` yields 511. -/
theorem servo_angle_count_truncation (deg : ℚ) :
    servoAngleCount deg =
      ⌊(500 + (max (-90) (min 90 deg) + 90) / 180 * 2000) / 20000 *
        (SERVO_PERIOD : ℚ)⌋ ∧
    (∀ c : PwmChan, servoAngle c deg =
      pulseWidthSet c ((servoAngleCount deg : ℤ) : ℚ)) ∧
    servoAngleCount (-90) = 102 ∧
    servoAngleCount 0 = 307 ∧
    servoAngleCount 90 = 511 := by
  refine ⟨?_, fun c => rfl, by decide, by decide, by decide⟩
  simp only [servoAngleCount]
  set x := max (-90) (min 90 deg) with hx
  have hx1 : (-90 : ℚ) ≤ x := le_max_left _ _
  have hx2 : x ≤ 90 := by
    rw [hx]
    exact max_le (by norm_num) (min_le_left _ _)
  have hmap : mapping x (-90) 90 500 2500 = 500 + (x + 90) / 180 * 2000 := by
    unfold mapping
    ring
  have hlo : (500 : ℚ) ≤ 500 + (x + 90) / 180 * 2000 := by nlinarith
  have hhi : 500 + (x + 90) / 180 * 2000 ≤ 2500 := by nlinarith
  have hclamp : max 500 (min 2500 (500 + (x + 90) / 180 * 2000)) =
      500 + (x + 90) / 180 * 2000 := by
    rw [min_eq_right hhi, max_eq_right hlo]
  rw [hmap, hclamp, pyInt_of_nonneg]
  have hP : (0 : ℚ) ≤ (SERVO_PERIOD : ℚ) := by positivity
  have h20 : (0 : ℚ) ≤ (500 + (x + 90) / 180 * 2000) / 20000 := by linarith
  exact mul_nonneg h20 hP

/-- C5: for each requested frequency in {50, 100, 1000, 20000} Hz the
resolved `(prescaler, period)` pair achieves a frequency within 2% of
the request: `|CLOCK/(prescaler*period) - f| / f < 0.02`. -/
theorem freq_two_percent_bound :
    (pwmFreqResolve ((50 : ℕ) : ℚ) = some (1200, 1200) ∧
      |(CLOCK : ℚ) / (1200 * 1200) - 50| / 50 < 2 / 100) ∧
    (pwmFreqResolve ((100 : ℕ) : ℚ) = some (848, 849) ∧
      |(CLOCK : ℚ) / (848 * 849) - 100| / 100 < 2 / 100) ∧
    (pwmFreqResolve ((1000 : ℕ) : ℚ) = some (268, 268) ∧
      |(CLOCK : ℚ) / (268 * 268) - 1000| / 1000 < 2 / 100) ∧
    (pwmFreqResolve ((20000 : ℕ) : ℚ) = some (60, 60) ∧
      |(CLOCK : ℚ) / (60 * 60) - 20000| / 20000 < 2 / 100) := by
  have s50 : Nat.sqrt (CLOCK / 50) = 1200 := (Nat.eq_sqrt.mpr (by decide)).symm
  have s100 : Nat.sqrt (CLOCK / 100) = 848 := (Nat.eq_sqrt.mpr (by decide)).symm
  have s1000 : Nat.sqrt (CLOCK / 1000) = 268 :=
    (Nat.eq_sqrt.mpr (by decide)).symm
  have s20000 : Nat.sqrt (CLOCK / 20000) = 60 :=
    (Nat.eq_sqrt.mpr (by decide)).symm
  refine ⟨⟨?_, by decide⟩, ⟨?_, by decide⟩, ⟨?_, by decide⟩, ⟨?_, by decide⟩⟩
  · rw [pwmFreqResolve_natCast 50 (by norm_num)]
    simp only [freqCandidates, freqStart, s50]
    decide
  · rw [pwmFreqResolve_natCast 100 (by norm_num)]
    simp only [freqCandidates, freqStart, s100]
    decide
  · rw [pwmFreqResolve_natCast 1000 (by norm_num)]
    simp only [freqCandidates, freqStart, s1000]
    decide
  · rw [pwmFreqResolve_natCast 20000 (by norm_num)]
    simp only [freqCandidates, freqStart, s20000]
    decide

/-- C8: for every non-positive requested frequency, `PWM.freq` fails
(`ZeroDivisionError` for `int(freq) = 0`, `math domain error` for a
negative value) before `prescaler` or `period` is called, so no
register write is attempted. -/
theorem freq_nonpositive_no_write (c : PwmChan) (tm : List ℤ) (f : ℚ)
    (hf : f ≤ 0) : freqSet c tm f = none := by
  have h : pyInt f ≤ 0 := by
    unfold pyInt
    split_ifs with h0
    · have h1 : f = 0 := le_antisymm hf h0
      simp [h1]
    · exact Int.ceil_le.mpr (by exact_mod_cast hf)
  unfold freqSet pwmFreqResolve
  simp [h]

/-- Witness for C8 at `f = 0`. -/
theorem freq_nonpositive_no_write_witness :
    (0 : ℚ) ≤ 0 ∧
      freqSet ⟨0, 0, 50, 1440, 0, none⟩ [1, 1, 1, 1, 1, 1, 1] 0 = none :=
  ⟨le_refl 0, freq_nonpositive_no_write ⟨0, 0, 50, 1440, 0, none⟩
    [1, 1, 1, 1, 1, 1, 1] 0 (le_refl 0)⟩

/-- C10: `servo_move` can raise an uncaught `ZeroDivisionError` on a
nonzero delta: with one axis moving from 0 to 1 at `bpm = 10000` the
total time is 6 ms, `max_step = int(6/10) = 0`, and `delta / max_step`
divides by zero; likewise a rate-limited move of 4 degrees at
`bpm = 7000` is stretched only to `4/428*1000 ≈ 9.35 ms < 10 ms`. -/
theorem servo_move_zero_step_division :
    servoMove [0] [1] 50 (some 10000) = MoveOutcome.zeroDivError 6 ∧
    servoMove [0] [4] 50 (some 7000) =
      MoveOutcome.zeroDivError (4 / (max_dps : ℚ) * 1000) ∧
    servoMove [0] [1] 50 (some 10000) ≠ MoveOutcome.noMove := by
  refine ⟨by decide, ?_, by decide⟩
  have h : (4 : ℚ) / (max_dps : ℚ) * 1000 = 1000 / 107 := by
    unfold max_dps
    norm_num
  rw [h]
  decide

/-- C4: whenever `max_delta / total_ms * 1000 > max_dps = 428`, the
total duration is recomputed as `max_delta / max_dps * 1000`, so the
dps ceiling overrides the speed- or bpm-derived duration; in
particular a 90-degree move at `speed = 100` (nominal duration 10 ms)
runs for `90/428*1000 = 22500/107 ≈ 210.3 ms ≥ 210 ms` in 21 steps. -/
theorem servo_move_dps_ceiling :
    (∀ (maxDelta : ℤ) (t0 : ℚ),
      (maxDelta : ℚ) / t0 * 1000 > (max_dps : ℚ) →
      limitedTotalTime maxDelta t0 = (maxDelta : ℚ) / (max_dps : ℚ) * 1000) ∧
    nominalTotalTime 100 none = 10 ∧
    servoMove [0] [90] 100 none =
      MoveOutcome.moved (22500 / 107) 21 [30 / 7] ∧
    (210 : ℚ) ≤ 22500 / 107 := by
  refine ⟨fun maxDelta t0 h => if_pos h, by decide, by decide, by decide⟩

/-- Witness for C4: the rate-limit hypothesis discharged at
`maxDelta = 90`, `t0 = 10`. -/
theorem servo_move_dps_ceiling_witness :
    ((90 : ℚ) / 10 * 1000 > (max_dps : ℚ)) ∧
    limitedTotalTime 90 10 = (90 : ℚ) / (max_dps : ℚ) * 1000 := by
  have h : ((90 : ℤ) : ℚ) / 10 * 1000 > (max_dps : ℚ) := by decide
  exact ⟨by decide, servo_move_dps_ceiling.1 90 10 h⟩

/-- C6 (counterexample): the claim says `pulse_width(value)` clamps to
`[0, 65535]`; at `value = 70000` a clamped write would carry the bytes
`(0xFF, 0xFF)`, but the code stores the unclamped 70000 and emits
high "byte" `70000 >> 8 = 273`, which is not even in byte range. -/
theorem pulse_width_clamp_cex :
    (pulseWidthSet ⟨0, 0, 50, 1440, 0, none⟩ 70000).1.pulseWidthRaw = 70000 ∧
    (pulseWidthSet ⟨0, 0, 50, 1440, 0, none⟩ 70000).2 =
      [⟨0x20, 273, 112⟩] ∧
    (pulseWidthSet ⟨0, 0, 50, 1440, 0, none⟩ 70000).2 ≠
      [⟨0x20, 0xFF, 0xFF⟩] := by
  refine ⟨by decide, by decide, by decide⟩

/-- C6 (amended): `pulse_width(value)` truncates the value with
`int(...)` and writes it *without clamping* to register
`0x20 + channel` as one 3-byte transaction `[reg, value >> 8,
value & 0xFF]`; only for values already in `[0, 65535]` is the payload
the usual 16-bit big-endian byte split (both payload bytes in
`[0, 255]` and `256 * hi + lo` recovering the value). -/
theorem pulse_width_unclamped_write (c : PwmChan) (v : ℚ) :
    (pulseWidthSet c v).1.pulseWidthRaw = pyInt v ∧
    (pulseWidthSet c v).2 = [i2cWrite16 ((0x20 : ℤ) + c.channel) (pyInt v)] ∧
    ∀ w ∈ (pulseWidthSet c v).2,
      w.reg = (0x20 : ℤ) + c.channel ∧
      256 * w.hi + w.lo = pyInt v ∧
      (0 ≤ pyInt v → pyInt v ≤ 65535 →
        0 ≤ w.hi ∧ w.hi ≤ 255 ∧ 0 ≤ w.lo ∧ w.lo ≤ 255) := by
  refine ⟨rfl, rfl, ?_⟩
  intro w hw
  simp only [pulseWidthSet, List.mem_singleton] at hw
  subst hw
  refine ⟨rfl, ?_, ?_⟩
  · show 256 * Int.fdiv (pyInt v) 256 + Int.emod (pyInt v) 256 = pyInt v
    rw [Int.fdiv_eq_ediv _ (by norm_num)]
    exact Int.ediv_add_emod (pyInt v) 256
  · intro h0 h1
    have hlo0 : 0 ≤ Int.emod (pyInt v) 256 := Int.emod_nonneg _ (by norm_num)
    have hlo1 : Int.emod (pyInt v) 256 < 256 :=
      Int.emod_lt_of_pos _ (by norm_num)
    have hhi : Int.fdiv (pyInt v) 256 = (pyInt v) / 256 :=
      Int.fdiv_eq_ediv _ (by norm_num)
    refine ⟨?_, ?_, hlo0, ?_⟩
    · show 0 ≤ Int.fdiv (pyInt v) 256
      rw [hhi]
      exact Int.ediv_nonneg h0 (by norm_num)
    · show Int.fdiv (pyInt v) 256 ≤ 255
      rw [hhi]
      omega
    · show Int.emod (pyInt v) 256 ≤ 255
      omega

/-- Witness for C6 at channel 0, `v = 65535`. -/
theorem pulse_width_unclamped_write_witness :
    (pulseWidthSet ⟨0, 0, 50, 1440, 0, none⟩ 65535).2 =
      [i2cWrite16 (0x20 : ℤ) (pyInt 65535)] ∧
    ((i2cWrite16 (0x20 : ℤ) (pyInt 65535)).reg = (0x20 : ℤ) ∧
      256 * (i2cWrite16 (0x20 : ℤ) (pyInt 65535)).hi +
        (i2cWrite16 (0x20 : ℤ) (pyInt 65535)).lo = pyInt 65535 ∧
      (0 ≤ pyInt (65535 : ℚ) → pyInt (65535 : ℚ) ≤ 65535 →
        0 ≤ (i2cWrite16 (0x20 : ℤ) (pyInt 65535)).hi ∧
        (i2cWrite16 (0x20 : ℤ) (pyInt 65535)).hi ≤ 255 ∧
        0 ≤ (i2cWrite16 (0x20 : ℤ) (pyInt 65535)).lo ∧
        (i2cWrite16 (0x20 : ℤ) (pyInt 65535)).lo ≤ 255)) := by
  have h := pulse_width_unclamped_write ⟨0, 0, 50, 1440, 0, none⟩ 65535
  refine ⟨h.2.1.trans (by norm_num), ?_⟩
  have hm := h.2.2 (i2cWrite16 ((0x20 : ℤ) + (0 : ℕ)) (pyInt 65535))
    (by rw [h.2.1]; exact List.mem_singleton_self _)
  simpa using hm

/-- What `PWM.prescaler(p)` changes: only the cached prescaler and
frequency; the single write goes to the timer-group prescaler
register with value `round(p) - 1`. -/
lemma prescalerSet_parts {c : PwmChan} {tm : List ℤ} {p : ℚ}
    {c' : PwmChan} {w : List RegWrite}
    (h : prescalerSet c tm p = some (c', w)) :
    c' = { c with
      prescaler := pyRound p
      freqCache := pyInt ((CLOCK : ℚ) / (pyRound p : ℚ) /
        (timerArr tm c.timerIndex : ℚ)) } ∧
    ∃ reg : ℤ, (0x40 : ℤ) ≤ reg ∧ w = [i2cWrite16 reg (pyRound p - 1)] := by
  simp only [prescalerSet] at h
  by_cases h1 : pyRound p = 0 ∨ timerArr tm c.timerIndex = 0
  · rw [if_pos h1] at h
    cases h
  · rw [if_neg h1] at h
    by_cases h2 : c.timerIndex < 4
    · rw [if_pos h2] at h
      simp only [Option.some.injEq, Prod.mk.injEq] at h
      obtain ⟨hc, hw⟩ := h
      subst hc
      subst hw
      exact ⟨rfl, 0x40 + (c.timerIndex : ℤ), by omega, rfl⟩
    · rw [if_neg h2] at h
      simp only [Option.some.injEq, Prod.mk.injEq] at h
      obtain ⟨hc, hw⟩ := h
      subst hc
      subst hw
      exact ⟨rfl, 0x50 + (c.timerIndex : ℤ) - 4, by omega, rfl⟩

/-- What `PWM.period(arr)` changes: the shared timer slot, the cached
frequency; the single write goes to the timer-group period register
with value `round(arr)`. -/
lemma periodSet_parts {c : PwmChan} {tm : List ℤ} {arr : ℚ}
    {c' : PwmChan} {tm' : List ℤ} {w : List RegWrite}
    (h : periodSet c tm arr = some (c', tm', w)) :
    c' = { c with freqCache := pyInt ((CLOCK : ℚ) / (c.prescaler : ℚ) /
            (pyRound arr : ℚ)) } ∧
    tm' = tm.set c.timerIndex (pyRound arr) ∧
    ∃ reg : ℤ, (0x40 : ℤ) ≤ reg ∧ w = [i2cWrite16 reg (pyRound arr)] := by
  simp only [periodSet] at h
  by_cases h1 : c.prescaler = 0 ∨ pyRound arr = 0
  · rw [if_pos h1] at h
    cases h
  · rw [if_neg h1] at h
    by_cases h2 : c.timerIndex < 4
    · rw [if_pos h2] at h
      simp only [Option.some.injEq, Prod.mk.injEq] at h
      obtain ⟨hc, htm, hw⟩ := h
      subst hc
      subst htm
      subst hw
      exact ⟨rfl, rfl, 0x44 + (c.timerIndex : ℤ), by omega, rfl⟩
    · rw [if_neg h2] at h
      simp only [Option.some.injEq, Prod.mk.injEq] at h
      obtain ⟨hc, htm, hw⟩ := h
      subst hc
      subst htm
      subst hw
      exact ⟨rfl, rfl, 0x54 + (c.timerIndex : ℤ) - 4, by omega, rfl⟩

/-- Decomposition of a successful `PWM.freq(f)` call. -/
lemma freqSet_parts {c : PwmChan} {tm : List ℤ} {f : ℚ}
    {c' : PwmChan} {tm' : List ℤ} {w : List RegWrite}
    (h : freqSet c tm f = some (c', tm', w)) :
    ∃ psc arr c₂ w₁ w₂,
      pwmFreqResolve f = some (psc, arr) ∧
      prescalerSet { c with freqCache := pyInt f } tm (psc : ℚ) =
        some (c₂, w₁) ∧
      periodSet c₂ tm (arr : ℚ) = some (c', tm', w₂) ∧
      w = w₁ ++ w₂ := by
  rw [show freqSet c tm f =
      (match pwmFreqResolve f with
       | none => none
       | some (psc, arr) =>
         match prescalerSet { c with freqCache := pyInt f } tm (psc : ℚ) with
         | none => none
         | some (c₂, w₁) =>
           match periodSet c₂ tm (arr : ℚ) with
           | none => none
           | some (c₃, tm₂, w₂) => some (c₃, tm₂, w₁ ++ w₂)) from rfl] at h
  cases hr : pwmFreqResolve f with
  | none => rw [hr] at h; cases h
  | some pa =>
    obtain ⟨psc, arr⟩ := pa
    rw [hr] at h
    simp only at h
    cases hp : prescalerSet { c with freqCache := pyInt f } tm (psc : ℚ) with
    | none => rw [hp] at h; cases h
    | some cw =>
      obtain ⟨c₂, w₁⟩ := cw
      rw [hp] at h
      simp only at h
      cases hq : periodSet c₂ tm (arr : ℚ) with
      | none => rw [hq] at h; cases h
      | some cw₂ =>
        obtain ⟨c₃, tm₂, w₂⟩ := cw₂
        rw [hq] at h
        simp only [Option.some.injEq, Prod.mk.injEq] at h
        obtain ⟨hc, htm, hw⟩ := h
        subst hc
        subst htm
        subst hw
        exact ⟨psc, arr, c₂, w₁, w₂, rfl, hp, hq, rfl⟩

/-- Constructor-direction decomposition of `freqSet`. -/
lemma freqSet_some {c : PwmChan} {tm : List ℤ} {f : ℚ} {psc arr : ℕ}
    {c₂ : PwmChan} {w₁ : List RegWrite} {c₃ : PwmChan} {tm₂ : List ℤ}
    {w₂ : List RegWrite}
    (hr : pwmFreqResolve f = some (psc, arr))
    (hp : prescalerSet { c with freqCache := pyInt f } tm (psc : ℚ) =
      some (c₂, w₁))
    (hq : periodSet c₂ tm (arr : ℚ) = some (c₃, tm₂, w₂)) :
    freqSet c tm f = some (c₃, tm₂, w₁ ++ w₂) := by
  unfold freqSet
  rw [hr]
  dsimp only
  rw [hp]
  dsimp only
  rw [hq]

/-- C7 (counterexample): the claim says a `freq(hz)` call re-derives
and re-writes the raw pulse width from the stored percentage; on a
channel with a stored 50% and a new period of 268 the re-derived raw
width would be `int(0.5 * 268) = 134`, but after `freq(1000)` the raw
pulse width is still the old 2047 and the only writes are to the
prescaler (0x40) and period (0x44) registers, none to `0x20 + ch`. -/
theorem freq_percent_rederive_cex :
    freqSet ⟨0, 0, 50, 1440, 2047, some 50⟩ [4095, 1, 1, 1, 1, 1, 1]
        ((1000 : ℕ) : ℚ) =
      some (⟨0, 0, 1002, 268, 2047, some 50⟩, [268, 1, 1, 1, 1, 1, 1],
        [i2cWrite16 0x40 267, i2cWrite16 0x44 268]) ∧
    (i2cWrite16 0x40 267).reg = 0x40 ∧ (i2cWrite16 0x44 268).reg = 0x44 ∧
    pyInt ((50 : ℚ) / 100 * 268) = 134 ∧
    (2047 : ℤ) ≠ 134 := by
  have hs : Nat.sqrt (CLOCK / 1000) = 268 := (Nat.eq_sqrt.mpr (by decide)).symm
  have hr : pwmFreqResolve ((1000 : ℕ) : ℚ) = some (268, 268) := by
    rw [pwmFreqResolve_natCast 1000 (by norm_num)]
    simp only [freqCandidates, freqStart, hs]
    decide
  have hp : prescalerSet
      { (⟨0, 0, 50, 1440, 2047, some 50⟩ : PwmChan) with
        freqCache := pyInt ((1000 : ℕ) : ℚ) }
      [4095, 1, 1, 1, 1, 1, 1] ((268 : ℕ) : ℚ) =
      some (⟨0, 0, 65, 268, 2047, some 50⟩, [i2cWrite16 0x40 267]) := by
    decide
  have hq : periodSet ⟨0, 0, 65, 268, 2047, some 50⟩
      [4095, 1, 1, 1, 1, 1, 1] ((268 : ℕ) : ℚ) =
      some (⟨0, 0, 1002, 268, 2047, some 50⟩, [268, 1, 1, 1, 1, 1, 1],
        [i2cWrite16 0x44 268]) := by
    decide
  refine ⟨?_, rfl, rfl, by decide, by decide⟩
  exact freqSet_some hr hp hq

/-- C7 (amended): `freq(hz)` runs the frequency-resolution algorithm
and programs the prescaler and period registers only; it never
re-derives or re-writes the raw pulse width, whether or not a
percentage was previously requested — the stored percentage and the
raw pulse width are both left unchanged, and no write touches the
channel pulse-width register (all registers written are ≥ 0x40, while
channel registers are `0x20 + ch ≤ 0x33`). -/
theorem freq_preserves_pulse_width (c : PwmChan) (tm : List ℤ) (f : ℚ)
    (c' : PwmChan) (tm' : List ℤ) (w : List RegWrite)
    (h : freqSet c tm f = some (c', tm', w)) :
    c'.pulseWidthRaw = c.pulseWidthRaw ∧
    c'.pwPercent = c.pwPercent ∧
    ∀ rw ∈ w, (0x40 : ℤ) ≤ rw.reg := by
  obtain ⟨psc, arr, c₂, w₁, w₂, _, hp, hq, hw⟩ := freqSet_parts h
  obtain ⟨hc₂, reg₁, hreg₁, hw₁⟩ := prescalerSet_parts hp
  obtain ⟨hc₃, _, reg₂, hreg₂, hw₂⟩ := periodSet_parts hq
  subst hc₂
  refine ⟨by rw [hc₃], by rw [hc₃], ?_⟩
  intro rw hrw
  rw [hw, hw₁, hw₂] at hrw
  simp only [List.mem_append, List.mem_singleton] at hrw
  rcases hrw with hrw | hrw
  · subst hrw
    exact hreg₁
  · subst hrw
    exact hreg₂

/-- Concrete resolution at 100 Hz (shared by several claims). -/
lemma resolve100 : pwmFreqResolve ((100 : ℕ) : ℚ) = some (848, 849) := by
  have hs : Nat.sqrt (CLOCK / 100) = 848 := (Nat.eq_sqrt.mpr (by decide)).symm
  rw [pwmFreqResolve_natCast 100 (by norm_num)]
  simp only [freqCandidates, freqStart, hs]
  decide

/-- Concrete `freq(100)` call on a fresh channel 0 bound to timer 0. -/
lemma freqSet100 :
    freqSet ⟨0, 0, 50, 1440, 0, none⟩ [4095, 1, 1, 1, 1, 1, 1]
        ((100 : ℕ) : ℚ) =
      some (⟨0, 0, 100, 848, 0, none⟩, [849, 1, 1, 1, 1, 1, 1],
        [i2cWrite16 0x40 847, i2cWrite16 0x44 849]) := by
  have hp : prescalerSet
      { (⟨0, 0, 50, 1440, 0, none⟩ : PwmChan) with
        freqCache := pyInt ((100 : ℕ) : ℚ) }
      [4095, 1, 1, 1, 1, 1, 1] ((848 : ℕ) : ℚ) =
      some (⟨0, 0, 20, 848, 0, none⟩, [i2cWrite16 0x40 847]) := by
    decide
  have hq : periodSet ⟨0, 0, 20, 848, 0, none⟩
      [4095, 1, 1, 1, 1, 1, 1] ((849 : ℕ) : ℚ) =
      some (⟨0, 0, 100, 848, 0, none⟩, [849, 1, 1, 1, 1, 1, 1],
        [i2cWrite16 0x44 849]) := by
    decide
  exact freqSet_some resolve100 hp hq

/-- Witness for C7: the theorem applied to the concrete `freq(100)`
call of `freqSet100`. -/
theorem freq_preserves_pulse_width_witness :
    (⟨0, 0, 100, 848, 0, none⟩ : PwmChan).pulseWidthRaw =
      (⟨0, 0, 50, 1440, 0, none⟩ : PwmChan).pulseWidthRaw ∧
    (⟨0, 0, 100, 848, 0, none⟩ : PwmChan).pwPercent =
      (⟨0, 0, 50, 1440, 0, none⟩ : PwmChan).pwPercent ∧
    (0x40 : ℤ) ≤ (i2cWrite16 0x40 847).reg := by
  have h := freq_preserves_pulse_width _ _ _ _ _ _ freqSet100
  exact ⟨h.1, h.2.1, h.2.2 (i2cWrite16 0x40 847) (by simp)⟩

/-- C2 (counterexample): channel 0 and a sibling channel 1 share timer
0; after channel 0 issues `freq(100)` both `period()` getters return
the shared 849, and channel 0's cached frequency becomes 100 — but the
sibling's `freq()` still reads its own stale instance cache 50, not
the new setting, contradicting the claim that the sibling's read-back
reflects the new frequency. -/
theorem sibling_freq_stale_cex :
    freqSet ⟨0, 0, 50, 1440, 0, none⟩ [4095, 1, 1, 1, 1, 1, 1]
        ((100 : ℕ) : ℚ) =
      some (⟨0, 0, 100, 848, 0, none⟩, [849, 1, 1, 1, 1, 1, 1],
        [i2cWrite16 0x40 847, i2cWrite16 0x44 849]) ∧
    periodGet (⟨0, 0, 100, 848, 0, none⟩ : PwmChan) [849, 1, 1, 1, 1, 1, 1] =
      periodGet (⟨1, 0, 50, 1440, 0, none⟩ : PwmChan)
        [849, 1, 1, 1, 1, 1, 1] ∧
    freqGet (⟨0, 0, 100, 848, 0, none⟩ : PwmChan) = 100 ∧
    freqGet (⟨1, 0, 50, 1440, 0, none⟩ : PwmChan) = 50 ∧
    freqGet (⟨1, 0, 50, 1440, 0, none⟩ : PwmChan) ≠
      freqGet (⟨0, 0, 100, 848, 0, none⟩ : PwmChan) := by
  refine ⟨freqSet100, rfl, by decide, by decide, by decide⟩

/-- C2 (amended): for two PWM channels bound to the same timer index,
after either channel successfully sets frequency or period, the
`period()` getter of both channels returns the same (new) shared
period value; the issuing channel's cached frequency is recomputed,
but the sibling's `freq()` keeps returning its own per-instance cached
value, which is not updated by the sibling's setting. -/
theorem shared_timer_period (c₁ c₂ : PwmChan) (tm : List ℤ)
    (hti : c₁.timerIndex = c₂.timerIndex) :
    (∀ (f : ℚ) (c₁' : PwmChan) (tm' : List ℤ) (w : List RegWrite),
      freqSet c₁ tm f = some (c₁', tm', w) →
      periodGet c₁' tm' = periodGet c₂ tm' ∧
      freqGet c₂ = (c₂.freqCache : ℚ)) ∧
    (∀ (a : ℚ) (c₁' : PwmChan) (tm' : List ℤ) (w : List RegWrite),
      periodSet c₁ tm a = some (c₁', tm', w) →
      periodGet c₁' tm' = periodGet c₂ tm') := by
  constructor
  · intro f c₁' tm' w h
    obtain ⟨psc, arr, cmid, w₁, w₂, hr, hp, hq, hw⟩ := freqSet_parts h
    obtain ⟨hcmid, _⟩ := prescalerSet_parts hp
    obtain ⟨hc₃, htm, _⟩ := periodSet_parts hq
    refine ⟨?_, rfl⟩
    unfold periodGet
    rw [hc₃, hcmid]
    show timerArr tm' c₁.timerIndex = timerArr tm' c₂.timerIndex
    rw [hti]
  · intro a c₁' tm' w h
    obtain ⟨hc₃, htm, _⟩ := periodSet_parts h
    unfold periodGet
    rw [hc₃]
    show timerArr tm' c₁.timerIndex = timerArr tm' c₂.timerIndex
    rw [hti]

/-- Witness for C2: the theorem applied to the concrete `freq(100)`
call of `freqSet100` with sibling channel 1 on the same timer. -/
theorem shared_timer_period_witness :
    periodGet (⟨0, 0, 100, 848, 0, none⟩ : PwmChan) [849, 1, 1, 1, 1, 1, 1] =
      periodGet (⟨1, 0, 50, 1440, 0, none⟩ : PwmChan)
        [849, 1, 1, 1, 1, 1, 1] ∧
    freqGet (⟨1, 0, 50, 1440, 0, none⟩ : PwmChan) =
      (((⟨1, 0, 50, 1440, 0, none⟩ : PwmChan).freqCache : ℤ) : ℚ) :=
  (shared_timer_period ⟨0, 0, 50, 1440, 0, none⟩ ⟨1, 0, 50, 1440, 0, none⟩
    [4095, 1, 1, 1, 1, 1, 1] rfl).1 ((100 : ℕ) : ℚ)
    ⟨0, 0, 100, 848, 0, none⟩ [849, 1, 1, 1, 1, 1, 1]
    [i2cWrite16 0x40 847, i2cWrite16 0x44 849] freqSet100

/-- Updating a key that is present: the first (and any) entry with the
key is replaced, so lookup finds the new value. -/
lemma find?_map_update (s : List (String × List ℚ)) (k : String)
    (v : List ℚ) (hs : s.any (fun e => e.1 = k) = true) :
    (s.map (fun e => if e.1 = k then (k, v) else e)).find?
      (fun e => e.1 = k) = some (k, v) := by
  induction s with
  | nil => cases hs
  | cons e t ih =>
    by_cases he : e.1 = k
    · simp only [List.map_cons, if_pos he]
      rw [List.find?_cons_of_pos _ (by simp)]
    · simp only [List.map_cons, if_neg he]
      rw [List.find?_cons_of_neg _ (by simpa using he)]
      apply ih
      simpa [he] using hs

/-- Appending a fresh key: lookup walks past all non-matching entries
and finds the appended one. -/
lemma find?_append_fresh (s : List (String × List ℚ)) (k : String)
    (v : List ℚ) (hs : s.any (fun e => e.1 = k) = false) :
    (s ++ [(k, v)]).find? (fun e => e.1 = k) = some (k, v) := by
  induction s with
  | nil => simp [List.find?_cons]
  | cons e t ih =>
    simp only [List.any_cons, Bool.or_eq_false_iff] at hs
    obtain ⟨he, ht⟩ := hs
    have he' : ¬ e.1 = k := by simpa using he
    rw [List.cons_append, List.find?_cons_of_neg _ (by simpa using he')]
    exact ih ht

/-- `storeGet` after `storeSet` on the same key returns the stored
value. -/
lemma storeGet_storeSet (s : List (String × List ℚ)) (k : String)
    (v d : List ℚ) : storeGet (storeSet s k v) k d = v := by
  unfold storeSet storeGet
  cases hsb : s.any (fun e => e.1 = k) with
  | false => rw [if_neg (by simp), find?_append_fresh s k v hsb]
  | true => rw [if_pos rfl, find?_map_update s k v hsb]

/-- Every clamped offset lies in `[-20, 20]`. -/
lemma clampOffset_mem (x : ℚ) : -20 ≤ clampOffset x ∧ clampOffset x ≤ 20 :=
  ⟨le_min (le_max_right x (-20)) (by norm_num), min_le_right _ _⟩

/-- C9: `set_offset` clamps every element to `[-20, 20]`, persists the
clamped list in the CalibrationStore under the key derived from the
robot name, and updates the in-memory offsets; reading back directly
and after a simulated restart (a fresh `reloadOffsets` from the store)
returns the same clamped list — e.g. `set_offset([5, -5])` round-trips
to `[5, -5]`. -/
theorem set_offset_clamp_roundtrip (r : RobotCal) (l : List ℚ) (n : ℕ) :
    ((set_offset r l).offset = l.map clampOffset ∧
     (∀ x ∈ (set_offset r l).offset, -20 ≤ x ∧ x ≤ 20) ∧
     reloadOffsets (set_offset r l).store r.name n = l.map clampOffset) ∧
    ((set_offset ⟨"other", [], []⟩ [5, -5]).offset = [5, -5] ∧
     reloadOffsets (set_offset ⟨"other", [], []⟩ [5, -5]).store "other" 2 =
       [5, -5]) := by
  refine ⟨⟨rfl, ?_, ?_⟩, ?_, ?_⟩
  · intro x hx
    simp only [set_offset, List.mem_map] at hx
    obtain ⟨y, _, hy⟩ := hx
    rw [← hy]
    exact clampOffset_mem y
  · exact storeGet_storeSet r.store (offsetKey r.name) (l.map clampOffset)
      (List.replicate n 0)
  · show [clampOffset 5, clampOffset (-5)] = [5, -5]
    norm_num [clampOffset]
  · show storeGet (storeSet [] (offsetKey "other")
        [clampOffset 5, clampOffset (-5)]) (offsetKey "other")
        (List.replicate 2 0) = [5, -5]
    rw [storeGet_storeSet]
    norm_num [clampOffset]

/-- Witness for C9: the bound and reload conjuncts discharged at a
concrete robot and offset list. -/
theorem set_offset_clamp_roundtrip_witness :
    (set_offset ⟨"x", [("k", [1])], [0]⟩ [25, -3]).offset =
      [25, -3].map clampOffset ∧
    (-20 ≤ clampOffset 25 ∧ clampOffset 25 ≤ 20) ∧
    reloadOffsets (set_offset ⟨"x", [("k", [1])], [0]⟩ [25, -3]).store "x" 2 =
      [25, -3].map clampOffset := by
  have h := set_offset_clamp_roundtrip ⟨"x", [("k", [1])], [0]⟩ [25, -3] 2
  refine ⟨h.1.1, ?_, h.1.2.2⟩
  exact h.1.2.1 (clampOffset 25)
    (by rw [h.1.1]; exact List.mem_map_of_mem clampOffset (by simp))

/-- For `1 ≤ n ≤ 720000` every scanned prescaler stays small enough
that every candidate period is positive (no `ZeroDivisionError`). -/
lemma freqCandidates_pos (n : ℕ) (h1 : 1 ≤ n) (h2 : n ≤ 720000) :
    ∀ c ∈ freqCandidates n, 0 < c.2 := by
  have hbound : n * (freqStart n + 9) ≤ CLOCK := by
    set s := Nat.sqrt (CLOCK / n) with hsdef
    have hstart : freqStart n ≤ s + 1 := by
      unfold freqStart
      omega
    have hss : s * s ≤ CLOCK / n := Nat.sqrt_le (CLOCK / n)
    have hsq : n * s * (n * s) ≤ 720000 * CLOCK := by
      have e1 : n * s * (n * s) = n * n * (s * s) := by ring
      have e2 : n * n * (s * s) ≤ n * n * (CLOCK / n) :=
        Nat.mul_le_mul_left _ hss
      have e3 : n * n * (CLOCK / n) = n * (CLOCK / n * n) := by ring
      have e4 : CLOCK / n * n ≤ CLOCK := Nat.div_mul_le_self CLOCK n
      have e5 : n * (CLOCK / n * n) ≤ n * CLOCK := Nat.mul_le_mul_left _ e4
      have e6 : n * CLOCK ≤ 720000 * CLOCK :=
        Nat.mul_le_mul_right _ h2
      omega
    have hns : n * s ≤ 7200000 := by
      by_contra hgt
      push_neg at hgt
      have hlt := Nat.mul_self_lt_mul_self hgt
      have : (720000 : ℕ) * CLOCK = 7200000 * 7200000 := by
        unfold CLOCK
        norm_num
      omega
    have h10 : n * 10 ≤ 7200000 := by omega
    have : n * (freqStart n + 9) ≤ n * (s + 10) :=
      Nat.mul_le_mul_left _ (by omega)
    have : n * (s + 10) = n * s + n * 10 := by ring
    unfold CLOCK
    omega
  intro c hc
  simp only [freqCandidates, List.mem_map, List.mem_range] at hc
  obtain ⟨k, hk, hck⟩ := hc
  rw [← hck]
  show 0 < CLOCK / n / (freqStart n + k)
  rw [Nat.div_div_eq_div_mul]
  apply Nat.div_pos
  · calc n * (freqStart n + k) ≤ n * (freqStart n + 9) :=
      Nat.mul_le_mul_left _ (by omega)
    _ ≤ CLOCK := hbound
  · have : 0 < freqStart n := by
      unfold freqStart
      omega
    positivity

/-- The first-minimum selection depends only on the candidate errors. -/
lemma argminBy_congr {e₁ e₂ : ℕ × ℕ → ℚ} (h : ∀ c, e₁ c = e₂ c)
    (l : List (ℕ × ℕ)) : argminBy e₁ l = argminBy e₂ l := by
  rw [funext h]

/-- C1 (counterexample): at the positive non-integer request
`f = 3/2` the code truncates to `int(3/2) = 1` and scans prescalers
from `max(1, floor(sqrt(CLOCK/1)) - 5) = 8480`, selecting
`(8485, 8485)` (an achieved frequency near 1 Hz), while the claimed
procedure for `f` itself scans from `floor(sqrt(CLOCK/1.5)) - 5 =
6923` and selects `(6928, 6928)` (achieved frequency near 1.5 Hz). -/
theorem freq_resolution_fractional_cex :
    pwmFreqResolve (3 / 2) = some (8485, 8485) ∧
    specFreqResolve (3 / 2) = some (6928, 6928) ∧
    pwmFreqResolve (3 / 2) ≠ specFreqResolve (3 / 2) := by
  have hs1 : Nat.sqrt (CLOCK / 1) = 8485 := (Nat.eq_sqrt.mpr (by decide)).symm
  have hcode : pwmFreqResolve (3 / 2) = some (8485, 8485) := by
    rw [pwmFreqResolve_eq (3 / 2) 1 (by decide) one_pos]
    simp only [freqCandidates, freqStart, hs1]
    decide
  have hfl : ⌊(CLOCK : ℚ) / (3 / 2 : ℚ)⌋₊ = 48000000 := by
    rw [show (CLOCK : ℚ) / (3 / 2 : ℚ) = ((48000000 : ℕ) : ℚ) by
      unfold CLOCK
      norm_num]
    exact Nat.floor_natCast _
  have hs2 : Nat.sqrt 48000000 = 6928 := (Nat.eq_sqrt.mpr (by decide)).symm
  have hspec : specFreqResolve (3 / 2) = some (6928, 6928) := by
    simp only [specFreqResolve, hfl, hs2]
    decide
  refine ⟨hcode, hspec, ?_⟩
  rw [hcode, hspec]
  decide

/-- C1 (amended): `PWM.freq` first truncates the request to
`int(freq)`.  For an integer request `n` with `1 ≤ n ≤ 720000` (large
enough requests make a candidate period 0 and the code raise
`ZeroDivisionError`), the selection equals the spec's procedure
applied to `n`: scan the 10 prescalers `p ∈ [p0, p0+10)` with
`p0 = max(1, floor(sqrt(CLOCK/n)) - 5)`, `period = floor(CLOCK/n/p)`,
minimize `|CLOCK/p/period - n|` with ties to the smallest `p`; and a
successful prescaler programming writes `p - 1` to the register.  For
a non-integer request the procedure is applied to `int(freq)`, not to
the request itself. -/
theorem freq_resolution_integer (n : ℕ) (h1 : 1 ≤ n) (h2 : n ≤ 720000) :
    pwmFreqResolve (n : ℚ) = specFreqResolve (n : ℚ) ∧
    (∀ (c : PwmChan) (tm : List ℤ) (psc : ℕ) (c' : PwmChan)
      (w : List RegWrite),
      prescalerSet c tm (psc : ℚ) = some (c', w) →
      ∃ reg, w = [i2cWrite16 reg ((psc : ℤ) - 1)]) := by
  constructor
  · have hpos := freqCandidates_pos n h1 h2
    have hguard : (freqCandidates n).any (fun c => c.2 = 0) = false := by
      rw [List.any_eq_false]
      intro c hc
      have := hpos c hc
      simp only [decide_eq_true_eq]
      omega
    rw [pwmFreqResolve_natCast n h1, if_neg (by rw [hguard]; exact
      Bool.false_ne_true)]
    unfold specFreqResolve
    have hfl : ⌊(CLOCK : ℚ) / (n : ℚ)⌋₊ = CLOCK / n := by
      rw [Nat.floor_div_nat, Nat.floor_natCast]
    have hper : ∀ m : ℕ, ⌊(CLOCK : ℚ) / (n : ℚ) / (m : ℚ)⌋₊ =
        CLOCK / n / m := by
      intro m
      rw [Nat.floor_div_nat, hfl]
    simp only [hfl, hper]
    unfold freqCandidates freqStart
    rw [max_comm (Nat.sqrt (CLOCK / n) - 5) 1]
    apply argminBy_congr
    intro c
    unfold freqError
    rw [abs_sub_comm]
  · intro c tm psc c' w h
    obtain ⟨_, reg, _, hw⟩ := prescalerSet_parts h
    refine ⟨reg, ?_⟩
    rw [hw, pyRound_natCast]

/-- Witness for C1 at `n = 50`. -/
theorem freq_resolution_integer_witness :
    ((1 : ℕ) ≤ 50 ∧ (50 : ℕ) ≤ 720000) ∧
    pwmFreqResolve ((50 : ℕ) : ℚ) = specFreqResolve ((50 : ℕ) : ℚ) :=
  ⟨⟨by decide, by decide⟩,
    (freq_resolution_integer 50 (by decide) (by decide)).1⟩

end RobotHat
